import Mathlib

/-!
Verification of the booking aggregation & availability engine of the
`flare-zone` repository, via a shallow embedding of the relevant source
files into Lean:

* `src/unnamed/part_013` — the time normalizer (`toUtcMs`,
  `parseNaiveDateTime`, `getTzOffsetMs`, `zonedNaiveToUtcMs`);
* `src/server/routes/woocommerce.ts` — `parseBookingDateToMs`, the
  paginated booking fetch loop of `getBookings` with its defensive date
  filter, and the missing-configuration response;
* `src/unnamed/part_015` — `handleAvailabilityRange` (grouping by
  `(product_id, start)` and its missing-configuration response);
* `src/unnamed/part_005` — the availability cache with its in-flight
  de-duplication map (`getAvailabilityBlocks`);
* `src/client/components/BookingCalendar.tsx` — the two instructor
  assignment filters (`loadMonth` and `refresh`).

Modelling conventions: JavaScript numbers appearing in these code paths
are integers (epoch milliseconds, counts, identifiers), embedded as `Int`;
`NaN` results of `Date.parse` are embedded as `none : Option Int`.
External platform facilities are parameters of the embedded functions:
`Date.parse` on non-naive strings is an arbitrary `String → Option Int`,
and a timezone (as observed through `Intl.DateTimeFormat`) is its UTC
offset function `Int → Int` (milliseconds of offset at a UTC instant).
-/

namespace FlareZone

/-! ## Calendar arithmetic (model of JavaScript `Date.UTC`) -/

/-- Days since the Unix epoch of a civil date (Howard Hinnant's
`days_from_civil` algorithm, the standard model of proleptic-Gregorian
epoch arithmetic used by JavaScript dates). `m` is 1-based and may carry
an out-of-range `d` (the formula is linear in `d`), matching `Date.UTC`
day rollover. -/
def daysFromCivil (y m d : Int) : Int :=
  let y' := if m ≤ 2 then y - 1 else y
  let era := y'.fdiv 400
  let yoe := y' - era * 400
  let mp := (m + 9).emod 12
  let doy := (153 * mp + 2).fdiv 5 + d - 1
  let doe := yoe * 365 + yoe.fdiv 4 - yoe.fdiv 100 + doy
  era * 146097 + doe - 719468

/-- Model of JavaScript `Date.UTC(y, mo0, d, h, mi, se)` in milliseconds:
0-based month with rollover into the year, day/hour/minute/second
rollover by linearity, and the legacy rule mapping years 0–99 to
1900–1999. -/
def dateUTC (y mo0 d h mi se : Int) : Int :=
  let yAdj := if 0 ≤ y ∧ y ≤ 99 then y + 1900 else y
  let ym := yAdj * 12 + mo0
  let yy := ym.fdiv 12
  let mm := ym.emod 12
  daysFromCivil yy (mm + 1) d * 86400000
    + h * 3600000 + mi * 60000 + se * 1000

/-! ## Time normalizer (`src/unnamed/part_013`) -/

/-- `const MS_THRESHOLD = 1_000_000_000_000` (part_013 line 1). -/
def MS_THRESHOLD : Int := 1000000000000

/-- `const MIN_VALID = Date.UTC(2000, 0, 1)` (part_013 line 2). -/
def MIN_VALID : Int := dateUTC 2000 0 1 0 0 0

/-- Result of `parseNaiveDateTime` (part_013 lines 4–17): the six numeric
capture groups of `^(\d\x7b4\x7d)-(\d\x7b2\x7d)-(\d\x7b2\x7d)(?:[ T](\d\x7b2\x7d):(\d\x7b2\x7d)(?::(\d\x7b2\x7d))?)?$`,
with hour/minute/second defaulting to 0. -/
structure NaiveDT where
  y : Int
  mo : Int
  d : Int
  h : Int
  mi : Int
  se : Int
  deriving DecidableEq, Repr

/-- Numeric value of a digit string (the effect of `Number(...)` on a
capture group of consecutive digits). -/
def digitsToInt (cs : List Char) : Int :=
  cs.foldl (fun acc c => acc * 10 + (c.toNat - '0'.toNat : Int)) 0

/-- `parseNaiveDateTime` (part_013 lines 4–17) on the character list of
the input: matches `YYYY-MM-DD`, optionally followed by a space or `T`
separator, `HH:mm`, and an optional `:ss`, anchored at both ends. -/
def parseNaiveChars : List Char → Option NaiveDT
  | y1 :: y2 :: y3 :: y4 :: '-' :: m1 :: m2 :: '-' :: d1 :: d2 :: rest =>
    if ([y1, y2, y3, y4, m1, m2, d1, d2].all Char.isDigit) then
      let y := digitsToInt [y1, y2, y3, y4]
      let mo := digitsToInt [m1, m2]
      let d := digitsToInt [d1, d2]
      match rest with
      | [] => some ⟨y, mo, d, 0, 0, 0⟩
      | sep :: h1 :: h2 :: ':' :: mi1 :: mi2 :: rest2 =>
        if (sep = ' ' ∨ sep = 'T') ∧ [h1, h2, mi1, mi2].all Char.isDigit then
          let h := digitsToInt [h1, h2]
          let mi := digitsToInt [mi1, mi2]
          match rest2 with
          | [] => some ⟨y, mo, d, h, mi, 0⟩
          | ':' :: s1 :: s2 :: [] =>
            if [s1, s2].all Char.isDigit then
              some ⟨y, mo, d, h, mi, digitsToInt [s1, s2]⟩
            else none
          | _ => none
        else none
      | _ => none
    else none
  | _ => none

/-- `parseNaiveDateTime` on a `String`. -/
def parseNaiveDateTime (s : String) : Option NaiveDT :=
  parseNaiveChars s.data

/-- `getTzOffsetMs(utcTs, timeZone)` (part_013 lines 19–42). The real
function formats `utcTs` in the zone with `Intl.DateTimeFormat` and
rebuilds the wall-clock fields with `Date.UTC`, yielding
`wallClock − utcTs`, i.e. the zone's UTC offset at that instant. The
zone (an external platform facility) is embedded as its offset function
`off`. -/
def getTzOffsetMs (off : Int → Int) (utcTs : Int) : Int :=
  off utcTs

/-- `zonedNaiveToUtcMs(s, timeZone)` (part_013 lines 44–57): parse the
naive timestamp, interpret its fields with `Date.UTC`, subtract the
zone offset at the candidate instant, then re-derive the offset at the
corrected instant and re-subtract if it changed. -/
def zonedNaiveToUtcMs (off : Int → Int) (s : String) : Option Int :=
  match parseNaiveDateTime s with
  | none => none
  | some p =>
    let localTs := dateUTC p.y (p.mo - 1) p.d p.h p.mi p.se
    let offset := getTzOffsetMs off localTs
    let utcTs := localTs - offset
    let offset2 := getTzOffsetMs off utcTs
    some (if offset2 ≠ offset then localTs - offset2 else utcTs)

/-- The input type of `toUtcMs`: `string | number | null | undefined`,
with numbers embedded as `Int`. -/
inductive JsInput where
  | null : JsInput
  | num : Int → JsInput
  | str : String → JsInput
  deriving DecidableEq, Repr

/-- The `/^\d+$/` test of part_013 line 70. -/
def allDigits (cs : List Char) : Bool :=
  !cs.isEmpty && cs.all Char.isDigit

/-- The `/[zZ]|[+\-]\d\x7b2\x7d:\d\x7b2\x7d$/` test of part_013 line 77:
a `z` or `Z` anywhere, or a `±HH:MM` suffix. -/
def hasOffsetMarker (cs : List Char) : Bool :=
  cs.any (fun c => c = 'z' ∨ c = 'Z') ||
    match cs.reverse with
    | m2 :: m1 :: ':' :: h2 :: h1 :: sgn :: _ =>
      (sgn = '+' ∨ sgn = '-') && [h1, h2, m1, m2].all Char.isDigit
    | _ => false

/-- JavaScript `s.replace(" ", "T")`: replace only the first space. -/
def replaceFirstSpace : List Char → List Char
  | [] => []
  | c :: cs => if c = ' ' then 'T' :: cs else c :: replaceFirstSpace cs

/-- JavaScript `String.prototype.trim()`: strip leading and trailing
whitespace (modelled with `Char.isWhitespace`). -/
def trimChars (cs : List Char) : List Char :=
  ((cs.dropWhile Char.isWhitespace).reverse.dropWhile Char.isWhitespace).reverse

/-- `toUtcMs(input, siteTz)` (part_013 lines 59–89). `off` embeds the
site timezone, `dateParse` embeds `Date.parse` on offset-carrying
strings (`none` = `NaN`). All other behaviour follows the source: the
numeric branch compares against `MS_THRESHOLD`, the all-digit-string
branch against `MS_THRESHOLD / 1000`, and every branch rejects results
below `MIN_VALID`. -/
def toUtcMs (off : Int → Int) (dateParse : String → Option Int) :
    JsInput → Option Int
  | .null => none
  | .num input =>
    let ms := if input < MS_THRESHOLD then input * 1000 else input
    if MIN_VALID ≤ ms then some ms else none
  | .str s0 =>
    let cs := trimChars s0.data
    if cs.isEmpty then none
    else if allDigits cs then
      let sec := digitsToInt cs
      let ms := if sec < MS_THRESHOLD / 1000 then sec * 1000 else sec
      if MIN_VALID ≤ ms then some ms else none
    else if hasOffsetMarker cs then
      match dateParse (String.mk cs) with
      | some ms => if MIN_VALID ≤ ms then some ms else none
      | none => none
    else
      match zonedNaiveToUtcMs off (String.mk (replaceFirstSpace cs)) with
      | some ms => if MIN_VALID ≤ ms then some ms else none
      | none => none

/-! ## Round-trip helpers for the naive-timestamp analysis -/

/-- The wall-clock fields of a parsed naive timestamp interpreted with
`Date.UTC`, as in `zonedNaiveToUtcMs` (part_013 line 48). -/
def naiveLocalTs (p : NaiveDT) : Int :=
  dateUTC p.y (p.mo - 1) p.d p.h p.mi p.se

/-- The UTC instant produced by the two-pass offset resolution of
`zonedNaiveToUtcMs` on wall-clock value `L`: subtract the offset at the
candidate instant, then re-derive and re-subtract. (Both branches of the
source's final `if` equal this value.) -/
def twoPassUtc (off : Int → Int) (L : Int) : Int :=
  L - off (L - off L)

/-- Formatting a UTC instant back in the embedded timezone: the
wall-clock value shown is `utc + offset(utc)` (this is exactly the
`asUTC` value that `getTzOffsetMs` reconstructs from
`Intl.DateTimeFormat` parts). -/
def formatWallMs (off : Int → Int) (utc : Int) : Int :=
  utc + getTzOffsetMs off utc

/-- A concrete timezone model for the 2024-03-10 spring-forward in
America/New_York: UTC−5 before 2024-03-10T07:00Z, UTC−4 after. -/
def nyTransition : Int := dateUTC 2024 2 10 7 0 0

/-- Offset function of the America/New_York spring-forward model. -/
def nyOffset (t : Int) : Int :=
  if t < nyTransition then -18000000 else -14400000

/-! ## Availability aggregation (`handleAvailabilityRange`,
`src/unnamed/part_015` lines 745–816) -/

/-- A JavaScript number that may be `NaN` (`none`). -/
abbrev JNum := Option Int

/-- JavaScript truthiness of a number: `0` and `NaN` are falsy. -/
def jsTruthy : JNum → Bool
  | some v => v ≠ 0
  | none => false

/-- JavaScript `a || b` on numbers. -/
def jsOr (a b : JNum) : JNum := if jsTruthy a then a else b

/-- JavaScript `Math.max` on two numbers: `NaN`-propagating. -/
def jsMax (a b : JNum) : JNum :=
  match a, b with
  | some x, some y => some (max x y)
  | _, _ => none

/-- The `typeof x === "number" ? (x > 1e12 ? x : x * 1000) : Date.parse(x)`
conversion applied to `b.start` / `b.end` in `handleAvailabilityRange`
(part_015 lines 769–780); `Date.parse` of a malformed string — and of a
missing value — is `NaN` (`none`). -/
def parseRangeMs (dateParse : String → Option Int) : JsInput → JNum
  | .num n => some (if n > 1000000000000 then n else n * 1000)
  | .str s => dateParse s
  | .null => none

/-- The `person_counts` field: `number`, array, keyed object, or absent.
Array/object elements are taken after the source's `Number(n) || 0`
coercion. -/
inductive PCounts where
  | nil : PCounts
  | num : Int → PCounts
  | arr : List Int → PCounts
  | obj : List Int → PCounts
  deriving DecidableEq, Repr

/-- `parseCounts` (part_015 lines 751–765): falsy → 1; number →
`max 1 ·`; array/object → `max 1` of the element sum. -/
def parseCounts : PCounts → Int
  | .nil => 1
  | .num n => if n = 0 then 1 else max 1 n
  | .arr l => max 1 (l.foldl (· + ·) 0)
  | .obj l => max 1 (l.foldl (· + ·) 0)

/-- A raw booking record as consumed by the aggregation loop (fields
`product_id`, `start`, `end` — here `endv` — and `person_counts`). -/
structure RangeBooking where
  product_id : Int
  start : JsInput
  endv : JsInput
  person_counts : PCounts
  deriving DecidableEq, Repr

/-- The grouping key `` `${pid}|${startMs}` `` of part_015 line 746,
under JavaScript string formatting: distinct integers format distinctly
and `NaN` formats as `"NaN"`, so key equality is equality on
`(pid, parsed start)` with all `NaN`s identified. -/
def rangeKey (dateParse : String → Option Int) (b : RangeBooking) :
    Int × JNum :=
  (b.product_id, parseRangeMs dateParse b.start)

/-- A value of the aggregation map: `{ product_id, start, end, used }`
(part_015 lines 747–750). -/
structure SlotEntry where
  product_id : Int
  start : JNum
  endv : JNum
  used : Int
  deriving DecidableEq, Repr

/-- Lookup in the insertion-ordered association list modelling the
JavaScript `Map`. -/
def aggFind : List ((Int × JNum) × SlotEntry) → Int × JNum →
    Option SlotEntry
  | [], _ => none
  | e :: m, k => if e.1 = k then some e.2 else aggFind m k

/-- In-place update of an existing key, preserving insertion order
(JavaScript `Map.set` on a present key keeps its position). -/
def aggUpdate : List ((Int × JNum) × SlotEntry) → Int × JNum →
    SlotEntry → List ((Int × JNum) × SlotEntry)
  | [], _, _ => []
  | e :: m, k, v => if e.1 = k then (k, v) :: m else e :: aggUpdate m k v

/-- The `continue` guard
`if (allowedIds.size && !allowedIds.has(Number(b.product_id)))`
(part_015 line 768). -/
def skipB (allowed : List Int) (b : RangeBooking) : Bool :=
  !allowed.isEmpty && !(allowed.contains b.product_id)

/-- The update applied to an existing group (part_015 lines 785–788):
`prev.used += used; prev.end = Math.max(prev.end, endMs || prev.end)`. -/
def updEntry (e : SlotEntry) (endMs : JNum) (cnt : Int) : SlotEntry :=
  { e with used := e.used + cnt, endv := jsMax e.endv (jsOr endMs e.endv) }

/-- The entry created for a fresh group (part_015 lines 789–795):
`{ product_id, start, end: endMs || startMs, used }`. -/
def newEntry (pid : Int) (startMs endMs : JNum) (cnt : Int) : SlotEntry :=
  { product_id := pid, start := startMs, endv := jsOr endMs startMs,
    used := cnt }

/-- One iteration of the `for (const b of all)` aggregation loop
(part_015 lines 767–796). -/
def aggStep (dateParse : String → Option Int) (allowed : List Int)
    (m : List ((Int × JNum) × SlotEntry)) (b : RangeBooking) :
    List ((Int × JNum) × SlotEntry) :=
  if skipB allowed b then m
  else
    let startMs := parseRangeMs dateParse b.start
    let endMs := parseRangeMs dateParse b.endv
    let k := (b.product_id, startMs)
    match aggFind m k with
    | some e => aggUpdate m k (updEntry e endMs (parseCounts b.person_counts))
    | none => m ++ [(k, newEntry b.product_id startMs endMs
        (parseCounts b.person_counts))]

/-- The whole aggregation loop over the fetched records. -/
def aggregateRange (dateParse : String → Option Int) (allowed : List Int)
    (l : List RangeBooking) : List ((Int × JNum) × SlotEntry) :=
  l.foldl (aggStep dateParse allowed) []

/-- The `out` array of part_015 lines 798–812: the map's values in
insertion order (the route pushes one response object per
`map.values()` element, in that order, with no sort). -/
def rangeValues (m : List ((Int × JNum) × SlotEntry)) : List SlotEntry :=
  m.map (·.2)

/-- Membership predicate of the (product, start) group of key `k`,
taking the `allowedIds` guard into account. -/
def groupPred (dateParse : String → Option Int) (allowed : List Int)
    (k : Int × JNum) (b : RangeBooking) : Bool :=
  !skipB allowed b && decide (rangeKey dateParse b = k)

/-- Folding one group's records into an optional entry: the effect of
the aggregation loop restricted to a single key. -/
def foldGroup (dateParse : String → Option Int)
    (init : Option SlotEntry) (bs : List RangeBooking) : Option SlotEntry :=
  bs.foldl (fun acc b =>
    let startMs := parseRangeMs dateParse b.start
    let endMs := parseRangeMs dateParse b.endv
    let cnt := parseCounts b.person_counts
    match acc with
    | none => some (newEntry b.product_id startMs endMs cnt)
    | some e => some (updEntry e endMs cnt)) init

/-- Sum of the participant counts of a record list. -/
def usedSum (bs : List RangeBooking) : Int :=
  (bs.map (fun b => parseCounts b.person_counts)).sum

/-- The parsed end values of a record list (dropping `NaN`s). -/
def endVals (dateParse : String → Option Int) (bs : List RangeBooking) :
    List Int :=
  bs.filterMap (fun b => parseRangeMs dateParse b.endv)

/-- One step of the commutative maximum fold. -/
def maxStep (acc : Option Int) (v : Int) : Option Int :=
  some (match acc with | none => v | some a => max a v)

/-- Maximum of an integer list as a commutative fold (used to state
permutation invariance of the aggregated `end`). -/
def maxFold (l : List Int) : Option Int :=
  l.foldl maxStep none

/-- First record of the order counterexample: product 1. -/
def exBookingA : RangeBooking :=
  { product_id := 1, start := .num 2000000000000,
    endv := .num 2000003600000, person_counts := .num 2 }

/-- Second record of the order counterexample: product 2, earlier
start. -/
def exBookingB : RangeBooking :=
  { product_id := 2, start := .num 1900000000000,
    endv := .num 1900003600000, person_counts := .num 3 }

/-- A record whose `start`/`end` fail `Date.parse` (the C5 failing
input). -/
def badRangeBooking : RangeBooking :=
  { product_id := 1, start := .str "garbage", endv := .str "garbage",
    person_counts := .num 2 }

/-! ## `parseBookingDateToMs` and the defensive range filter
(`src/server/routes/woocommerce.ts` lines 106–137 and 324–332) -/

/-- The `/\dT\d/` test of woocommerce.ts line 113. -/
def hasDigitTDigit : List Char → Bool
  | a :: b :: c :: rest =>
    (a.isDigit && b = 'T' && c.isDigit) || hasDigitTDigit (b :: c :: rest)
  | _ => false

/-- The `/Z|[+-]\d\x7b2\x7d:?\d\x7b2\x7d$/` test of woocommerce.ts
line 113: a capital `Z` anywhere (that alternative is unanchored), or a
`±dd:dd` / `±dddd` suffix. -/
def hasTzSuffix (cs : List Char) : Bool :=
  cs.contains 'Z' ||
    (match cs.reverse with
     | m2 :: m1 :: ':' :: h2 :: h1 :: sgn :: _ =>
       (sgn = '+' ∨ sgn = '-') && [h1, h2, m1, m2].all Char.isDigit
     | m2 :: m1 :: h2 :: h1 :: sgn :: _ =>
       (sgn = '+' ∨ sgn = '-') && [h1, h2, m1, m2].all Char.isDigit
     | _ => false)

/-- The WooCommerce plain format
`^(\d\x7b4\x7d)-(\d\x7b2\x7d)-(\d\x7b2\x7d) (\d\x7b2\x7d):(\d\x7b2\x7d):(\d\x7b2\x7d)$`
(woocommerce.ts line 118): space separator and seconds both
mandatory. -/
def parseWcChars : List Char → Option NaiveDT
  | [y1, y2, y3, y4, '-', m1, m2, '-', d1, d2, ' ',
     h1, h2, ':', mi1, mi2, ':', s1, s2] =>
    if [y1, y2, y3, y4, m1, m2, d1, d2, h1, h2, mi1, mi2, s1, s2].all
        Char.isDigit then
      some ⟨digitsToInt [y1, y2, y3, y4], digitsToInt [m1, m2],
        digitsToInt [d1, d2], digitsToInt [h1, h2],
        digitsToInt [mi1, mi2], digitsToInt [s1, s2]⟩
    else none
  | _ => none

/-- `parseBookingDateToMs(val)` (woocommerce.ts lines 106–137): finite
numbers are seconds unless `> 1e12`; ISO strings with a timezone go
through `Date.parse` (falling back to `Date.now()` on `NaN`); the plain
WC format is interpreted as UTC via `Date.UTC`; anything else goes
through `Date.parse` with the same `Date.now()` fallback, and
non-string/non-number values return `Date.now()` directly. `now` embeds
`Date.now()`. -/
def parseBookingDateToMs (dateParse : String → Option Int) (now : Int) :
    JsInput → Int
  | .num n => if n > 1000000000000 then n else n * 1000
  | .str s =>
    if hasDigitTDigit s.data && hasTzSuffix s.data then
      match dateParse s with
      | some t => t
      | none => now
    else
      match parseWcChars s.data with
      | some p => dateUTC p.y (p.mo - 1) p.d p.h p.mi p.se
      | none =>
        match dateParse s with
        | some t => t
        | none => now
  | .null => now

/-- A booking as consumed by the defensive range filter of
`getBookings` (identifier plus raw `start`). -/
structure WcBooking where
  id : Int
  start : JsInput
  deriving DecidableEq, Repr

/-- The `s >= minMs` half of the defensive filter's predicate (an
absent bound is `-Infinity`, always passing; an unparseable bound is
`NaN`, never passing). -/
def passMin (dateParse : String → Option Int) (sd : Option String)
    (s : Int) : Bool :=
  match sd with
  | none => true
  | some d =>
    match dateParse (d ++ "T00:00:00Z") with
    | some m => decide (m ≤ s)
    | none => false

/-- The `s <= maxMs` half (absent bound = `Infinity`, unparseable
bound = `NaN`). -/
def passMax (dateParse : String → Option Int) (ed : Option String)
    (s : Int) : Bool :=
  match ed with
  | none => true
  | some d =>
    match dateParse (d ++ "T23:59:59Z") with
    | some m => decide (s ≤ m)
    | none => false

/-- The defensive server-side date filter of `getBookings`
(woocommerce.ts lines 324–332): when a `start_date` and/or `end_date`
is given, keep only bookings whose `parseBookingDateToMs(start)` lies in
`[Date.parse(start_date+"T00:00:00Z"), Date.parse(end_date+"T23:59:59Z")]`. -/
def rangeFilter (dateParse : String → Option Int) (now : Int)
    (sd ed : Option String) (bs : List WcBooking) : List WcBooking :=
  if sd.isNone && ed.isNone then bs
  else bs.filter (fun b =>
    passMin dateParse sd (parseBookingDateToMs dateParse now b.start) &&
    passMax dateParse ed (parseBookingDateToMs dateParse now b.start))

/-- A concrete `Date.parse` model used by witnesses: knows the two
bound strings of January 1–2, 2024 and nothing else. -/
def wDp (s : String) : Option Int :=
  if s = "2024-01-01T00:00:00Z" then some 1704067200000
  else if s = "2024-01-02T23:59:59Z" then some 1704239999000
  else none

/-! ## Paged fetch loop (`getBookings`, woocommerce.ts lines 268–321;
the `handleAvailabilityRange` loop of part_015 lines 670–683 has the
same shape) -/

/-- Outcome of one page request: a parsed batch, or any of the failures
that `break` the loop identically (timeout, network error, non-2xx,
JSON parse failure). -/
inductive PageResult (α : Type) where
  | ok : List α → PageResult α
  | fail : PageResult α

/-- Both loops request `per_page=100`. -/
def perPage : Nat := 100

/-- The body of the pagination `while` loop: accumulate this page's
batch, stop on failure (returning what is accumulated so far), on a
batch shorter than `perPage`, or when the page counter would exceed 5
(`if (page > 5) break`); `fuel` is the number of pages the ceiling still
allows. -/
def fetchGo {α : Type} (fetchPage : Nat → PageResult α) (page : Nat)
    (acc : List α) : Nat → List α
  | 0 => acc
  | fuel + 1 =>
    match fetchPage page with
    | .fail => acc
    | .ok batch =>
      if batch.length < perPage then acc ++ batch
      else fetchGo fetchPage (page + 1) (acc ++ batch) fuel

/-- The whole paginated fetch: pages from 1, hard ceiling of 5 pages. -/
def fetchAll {α : Type} (fetchPage : Nat → PageResult α) : List α :=
  fetchGo fetchPage 1 [] 5

/-! ## Cache layer with in-flight de-duplication
(`getAvailabilityBlocks`, part_005 lines 786–945) -/

/-- Association-list lookup (model of `Map.get`). -/
def alFind {κ β : Type} [DecidableEq κ] : List (κ × β) → κ → Option β
  | [], _ => none
  | e :: m, k => if e.1 = k then some e.2 else alFind m k

/-- `Map.set`: replace in place, else append. -/
def alInsert {κ β : Type} [DecidableEq κ] :
    List (κ × β) → κ → β → List (κ × β)
  | [], k, v => [(k, v)]
  | e :: m, k, v => if e.1 = k then (k, v) :: m else e :: alInsert m k v

/-- `Map.delete` (first occurrence; a JS `Map` holds each key once). -/
def alErase {κ β : Type} [DecidableEq κ] : List (κ × β) → κ → List (κ × β)
  | [], _ => []
  | e :: m, k => if e.1 = k then m else e :: alErase m k

/-- Identifier of a pending promise. -/
abbrev PromiseId := Nat

/-- The relevant service state: `availabilityCache`,
`availabilityInflight` (part_005 lines 171–178), a counter of loader
invocations, and a fresh-promise supply. -/
structure CacheState (V : Type) where
  cache : List (String × V)
  inflight : List (String × PromiseId)
  fetchCount : Nat
  nextP : PromiseId

/-- What a `getAvailabilityBlocks` call returns. -/
inductive CallOutcome (V : Type) where
  | cachedValue : V → CallOutcome V
  | joined : PromiseId → CallOutcome V
  | started : PromiseId → CallOutcome V
  deriving DecidableEq

/-- The synchronous prefix of `getAvailabilityBlocks` (part_005 lines
796–803 and 924–944): serve the cache if it has the key; else return
the in-flight promise if one exists; else create the promise (exactly
one loader invocation), register it in the in-flight map, and return
it. Under the single-threaded event loop this prefix is atomic: the
source performs no `await` between the cache check and
`availabilityInflight.set`. -/
def availCall {V : Type} (s : CacheState V) (key : String) :
    CacheState V × CallOutcome V :=
  match alFind s.cache key with
  | some v => (s, .cachedValue v)
  | none =>
    match alFind s.inflight key with
    | some p => (s, .joined p)
    | none =>
      ({ cache := s.cache,
         inflight := alInsert s.inflight key s.nextP,
         fetchCount := s.fetchCount + 1,
         nextP := s.nextP + 1 }, .started s.nextP)

/-- Settlement of the pending promise for `key` (part_005 lines
924–941): the cache is filled when a result was produced, and the
`finally` removes the in-flight entry in every case. -/
def availSettle {V : Type} (s : CacheState V) (key : String)
    (result : Option V) : CacheState V :=
  { s with
    cache := match result with
      | some v => alInsert s.cache key v
      | none => s.cache,
    inflight := alErase s.inflight key }

/-! ## Instructor assignment filters
(`src/client/components/BookingCalendar.tsx` lines 239–288 and
532–567) -/

/-- An event/assigned booking as seen by the filters: product and
booking identifiers with 0 meaning missing (the `|| 0` defaults), and
the start instant in epoch ms. -/
structure CalEvent where
  productId : Int
  bookingId : Int
  startMs : Int
  deriving DecidableEq, Repr

/-- Tier 1 of the `loadMonth` filter (lines 246–252): exact
booking-identifier match, both identifiers truthy. -/
def tierExact (assigned : List CalEvent) (e : CalEvent) : Bool :=
  assigned.any (fun a =>
    decide (e.bookingId ≠ 0) && decide (a.bookingId ≠ 0) &&
    decide (e.bookingId = a.bookingId))

/-- Tier 2 (lines 254–264): same product, both identifiers truthy, and
start times within 6 hours. -/
def tierProduct6h (assigned : List CalEvent) (e : CalEvent) : Bool :=
  assigned.any (fun a =>
    decide (e.productId ≠ 0) && decide (a.productId ≠ 0) &&
    decide (e.productId = a.productId) &&
    decide ((a.startMs - e.startMs).natAbs ≤ 6 * 60 * 60 * 1000))

/-- Tier 3 (lines 266–275): same product (both truthy) and same local
calendar day; `dayOf` embeds the runtime's local `Y-M-D` key. -/
def tierSameDay (dayOf : Int → Int) (assigned : List CalEvent)
    (e : CalEvent) : Bool :=
  assigned.any (fun a =>
    decide (e.productId ≠ 0) && decide (a.productId ≠ 0) &&
    decide (e.productId = a.productId) &&
    decide (dayOf a.startMs = dayOf e.startMs))

/-- Tier 4 (lines 277–285): time-only proximity within 90 minutes. -/
def tier90m (assigned : List CalEvent) (e : CalEvent) : Bool :=
  assigned.any (fun a =>
    decide ((a.startMs - e.startMs).natAbs ≤ 90 * 60 * 1000))

/-- The `loadMonth` instructor filter predicate (lines 239–287): the
four tiers evaluated in order with early acceptance. -/
def loadMonthPred (dayOf : Int → Int) (assigned : List CalEvent)
    (e : CalEvent) : Bool :=
  tierExact assigned e || tierProduct6h assigned e ||
    tierSameDay dayOf assigned e || tier90m assigned e

/-- The `loadMonth` filter applied to the event list (line 240). -/
def loadMonthFilter (dayOf : Int → Int) (assigned events : List CalEvent) :
    List CalEvent :=
  events.filter (loadMonthPred dayOf assigned)

/-- The `refresh` instructor filter predicate (lines 532–566): it
starts at the product+6h tier — there is no exact-identifier pass. -/
def refreshPred (dayOf : Int → Int) (assigned : List CalEvent)
    (e : CalEvent) : Bool :=
  tierProduct6h assigned e || tierSameDay dayOf assigned e ||
    tier90m assigned e

/-- The `refresh` filter applied to the event list (line 533). -/
def refreshFilter (dayOf : Int → Int) (assigned events : List CalEvent) :
    List CalEvent :=
  events.filter (refreshPred dayOf assigned)

/-- Counterexample event: booking 42, no product linkage, start at the
epoch. -/
def cexEvent : CalEvent := ⟨0, 42, 0⟩

/-- Counterexample assigned booking: the same identifier 42, no product
linkage, start 10^10 ms later. -/
def cexAssigned : CalEvent := ⟨0, 42, 10000000000⟩

/-! ## Missing-configuration responses (`getBookings`,
woocommerce.ts lines 202–221; `handleAvailabilityRange`, part_015 lines
444–455 and 628–642) -/

/-- The response-envelope fields relevant to the configuration-missing
paths. -/
structure Envelope where
  status : Nat
  success : Bool
  dataCount : Nat
  bookings_available : Option Bool
  credentials_missing : Option Bool
  error : Option String
  deriving DecidableEq, Repr

/-- The three WooCommerce credentials. -/
structure WooConfig where
  url : String
  consumerKey : String
  consumerSecret : String
  deriving DecidableEq, Repr

/-- `getWooConfig` (woocommerce.ts lines 13–32; the copy in part_015
lines 444–455 used by `handleAvailabilityRange` is identical): `null`
unless all three environment variables are present and non-empty. -/
def getWooConfig (env : String → Option String) : Option WooConfig :=
  match env "WOOCOMMERCE_STORE_URL", env "WOOCOMMERCE_CONSUMER_KEY",
      env "WOOCOMMERCE_CONSUMER_SECRET" with
  | some u, some k, some s =>
    if u = "" ∨ k = "" ∨ s = "" then none else some ⟨u, k, s⟩
  | _, _, _ => none

/-- The credentials check heading `getBookings` (woocommerce.ts lines
206–221): with no configuration, a 200 envelope
`{ success: true, data: [], total: 0, bookings_available: false,
credentials_missing: true }`; otherwise the handler continues as
`rest`. -/
def getBookingsRoute (env : String → Option String)
    (rest : WooConfig → Envelope) : Envelope :=
  match getWooConfig env with
  | none =>
    { status := 200, success := true, dataCount := 0,
      bookings_available := some false, credentials_missing := some true,
      error := none }
  | some c => rest c

/-- The credentials check heading `handleAvailabilityRange` (part_015
lines 637–642): with no configuration, a 400 response
`{ success: false, error: "WooCommerce credentials not configured" }`;
otherwise the handler continues as `rest`. -/
def availabilityRangeRoute (env : String → Option String)
    (rest : WooConfig → Envelope) : Envelope :=
  match getWooConfig env with
  | none =>
    { status := 400, success := false, dataCount := 0,
      bookings_available := none, credentials_missing := none,
      error := some "WooCommerce credentials not configured" }
  | some c => rest c

/-- A trivial continuation for closed route evaluations. -/
def trivialRest : WooConfig → Envelope := fun _ =>
  { status := 200, success := true, dataCount := 0,
    bookings_available := none, credentials_missing := none, error := none }

end FlareZone

namespace FlareZone

/-! ## Sanity checks of the calendar model -/

example : daysFromCivil 1970 1 1 = 0 := by decide
example : daysFromCivil 2000 1 1 = 10957 := by decide
example : MIN_VALID = 946684800000 := by decide
example : dateUTC 2024 2 10 2 30 0 = 1710037800000 := by decide

/-! ## C2 — numeric inputs of `toUtcMs` -/

/-- C2: every finite numeric input below the 10^12 seconds/millis
threshold is multiplied by 1000 (and rejected as `null` when the result
falls before the Jan 1 2000 UTC sanity floor, 946684800000 ms); every
numeric input at or above the threshold passes through unchanged; in
particular `toUtcMs(1700000000, tz) = 1700000000000` and
`toUtcMs(1700000000000, tz) = 1700000000000`. -/
theorem toUtcMs_numeric_threshold :
    (∀ (off : Int → Int) (dp : String → Option Int) (n : Int),
        (n < 1000000000000 →
          toUtcMs off dp (.num n) =
            if 946684800000 ≤ n * 1000 then some (n * 1000) else none) ∧
        (1000000000000 ≤ n → toUtcMs off dp (.num n) = some n)) ∧
    (∀ (off : Int → Int) (dp : String → Option Int),
        toUtcMs off dp (.num 1700000000) = some 1700000000000 ∧
        toUtcMs off dp (.num 1700000000000) = some 1700000000000) := by
  have hmin : MIN_VALID = 946684800000 := by decide
  have hthr : MS_THRESHOLD = 1000000000000 := rfl
  have key : ∀ (off : Int → Int) (dp : String → Option Int) (n : Int),
      (n < 1000000000000 →
        toUtcMs off dp (.num n) =
          if 946684800000 ≤ n * 1000 then some (n * 1000) else none) ∧
      (1000000000000 ≤ n → toUtcMs off dp (.num n) = some n) := by
    refine fun off dp n => ⟨fun hlt => ?_, fun hge => ?_⟩
    · show (if MIN_VALID ≤ if n < MS_THRESHOLD then n * 1000 else n then
          some (if n < MS_THRESHOLD then n * 1000 else n) else none) = _
      rw [hthr, if_pos hlt, hmin]
    · show (if MIN_VALID ≤ if n < MS_THRESHOLD then n * 1000 else n then
          some (if n < MS_THRESHOLD then n * 1000 else n) else none) = _
      rw [hthr, if_neg (not_lt.mpr hge),
        if_pos (le_trans (by norm_num [hmin]) hge)]
  refine ⟨key, fun off dp => ⟨?_, ?_⟩⟩
  · rw [(key off dp 1700000000).1 (by norm_num)]
    norm_num
  · exact (key off dp 1700000000000).2 (by norm_num)

/-- Witness for `toUtcMs_numeric_threshold` at concrete inputs: `5`
(seconds far before the floor → `null`) and `2·10^12` (already millis →
passed through). -/
theorem toUtcMs_numeric_threshold_witness :
    toUtcMs (fun _ => 0) (fun _ => none) (.num 5) = none ∧
    toUtcMs (fun _ => 0) (fun _ => none) (.num 2000000000000) =
      some 2000000000000 := by
  constructor
  · have h := ((toUtcMs_numeric_threshold.1
      (fun _ => 0) (fun _ => none) 5).1 (by norm_num))
    simpa using h
  · exact (toUtcMs_numeric_threshold.1
      (fun _ => 0) (fun _ => none) 2000000000000).2 (by norm_num)

/-! ## C1 — all-digit strings vs. numeric inputs -/

/-- C1 (code bug, evaluated at the failing input): the all-digit string
branch of `toUtcMs` (part_013 lines 70–75) compares the parsed value
against `MS_THRESHOLD / 1000 = 10^9` instead of the numeric branch's
`MS_THRESHOLD = 10^12`, so `"1700000000"` is kept as 1700000000 and then
rejected by the `MIN_VALID` floor, yielding `null`, while the numeric
input `1700000000` yields `1700000000000` — the two handlings disagree,
contrary to the spec's rule 3 and to the branch's own comment
("Assume Unix seconds when it's all digits"). -/
theorem toUtcMs_digit_string_mismatch :
    toUtcMs (fun _ => 0) (fun _ => none) (.str "1700000000") = none ∧
    toUtcMs (fun _ => 0) (fun _ => none) (.num 1700000000) =
      some 1700000000000 ∧
    toUtcMs (fun _ => 0) (fun _ => none) (.str "1700000000") ≠
      toUtcMs (fun _ => 0) (fun _ => none) (.num 1700000000) := by
  refine ⟨by decide, by decide, by decide⟩

/-! ## C3 — naive local strings, two-pass offset resolution, round trip -/

/-- The two-pass result of `zonedNaiveToUtcMs` equals `twoPassUtc` of
the parsed wall-clock value. -/
theorem zonedNaiveToUtcMs_eq_twoPass (off : Int → Int) (s : String)
    (p : NaiveDT) (hp : parseNaiveDateTime s = some p) :
    zonedNaiveToUtcMs off s = some (twoPassUtc off (naiveLocalTs p)) := by
  unfold zonedNaiveToUtcMs
  rw [hp]
  simp only [getTzOffsetMs, twoPassUtc, naiveLocalTs]
  split
  · rfl
  · next h =>
    have h2 := not_ne_iff.mp h
    rw [h2]

/-- C3 counterexample: the naive string `"2024-03-10 02:30"` (a
nonexistent local time on the spring-forward date) converts through
`toUtcMs` in the New York model to 2024-03-10T06:30Z, and formatting
that instant back in the same timezone shows 01:30, not the original
02:30 — the round trip does not reproduce the wall-clock time (it is off
by exactly the one-hour DST delta). -/
theorem naive_roundtrip_counterexample :
    toUtcMs nyOffset (fun _ => none) (.str "2024-03-10 02:30") =
      some 1710052200000 ∧
    formatWallMs nyOffset 1710052200000 =
      dateUTC 2024 2 10 2 30 0 - 3600000 ∧
    formatWallMs nyOffset 1710052200000 ≠ dateUTC 2024 2 10 2 30 0 := by
  refine ⟨by decide, by decide, by decide⟩

/-- C3 (amended): for every naive local timestamp string (one reaching
the naive branch of `toUtcMs`: nonempty after trimming, not all digits,
no UTC/offset marker, matching the `YYYY-MM-DD[ T]HH:mm[:ss]` pattern
after the space→`T` substitution), whenever the two-pass offset
resolution reaches a fixed point of the timezone's offset function (the
case of every existing local time; only nonexistent spring-forward
wall times escape it) and the result clears the year-2000 floor,
`toUtcMs` returns the two-pass UTC instant and formatting it back in the
same timezone reproduces the original wall-clock time. -/
theorem naive_roundtrip_fixed_point (off : Int → Int)
    (dp : String → Option Int) (s : String) (p : NaiveDT)
    (hne : (trimChars s.data).isEmpty = false)
    (hnd : allDigits (trimChars s.data) = false)
    (hnm : hasOffsetMarker (trimChars s.data) = false)
    (hp : parseNaiveDateTime
      (String.mk (replaceFirstSpace (trimChars s.data))) = some p)
    (hfix : off (twoPassUtc off (naiveLocalTs p)) =
      off (naiveLocalTs p - off (naiveLocalTs p)))
    (hfloor : MIN_VALID ≤ twoPassUtc off (naiveLocalTs p)) :
    toUtcMs off dp (.str s) = some (twoPassUtc off (naiveLocalTs p)) ∧
    formatWallMs off (twoPassUtc off (naiveLocalTs p)) = naiveLocalTs p := by
  constructor
  · show (if (trimChars s.data).isEmpty = true then none else _) = _
    rw [hne]
    simp only [Bool.false_eq_true, if_false, hnd, hnm,
      zonedNaiveToUtcMs_eq_twoPass off _ p hp]
    rw [if_pos hfloor]
  · show twoPassUtc off (naiveLocalTs p) +
      off (twoPassUtc off (naiveLocalTs p)) = naiveLocalTs p
    rw [hfix]
    unfold twoPassUtc
    ring

/-- Witness for `naive_roundtrip_fixed_point`: the existing local time
`"2024-03-10 01:30"` in the New York spring-forward model round-trips to
itself (06:30 UTC formats back to 01:30 wall clock). -/
theorem naive_roundtrip_fixed_point_witness :
    toUtcMs nyOffset (fun _ => none) (.str "2024-03-10 01:30") =
      some (twoPassUtc nyOffset (naiveLocalTs ⟨2024, 3, 10, 1, 30, 0⟩)) ∧
    formatWallMs nyOffset
        (twoPassUtc nyOffset (naiveLocalTs ⟨2024, 3, 10, 1, 30, 0⟩)) =
      naiveLocalTs ⟨2024, 3, 10, 1, 30, 0⟩ :=
  naive_roundtrip_fixed_point nyOffset (fun _ => none) "2024-03-10 01:30"
    ⟨2024, 3, 10, 1, 30, 0⟩ (by decide) (by decide) (by decide) (by decide)
    (by decide) (by decide)

/-! ## Association-map lemmas for the aggregation embedding -/

/-- Lookup distributes over append: the left map wins. -/
theorem aggFind_append (m m' : List ((Int × JNum) × SlotEntry))
    (k : Int × JNum) :
    aggFind (m ++ m') k =
      match aggFind m k with
      | some e => some e
      | none => aggFind m' k := by
  induction m with
  | nil => rfl
  | cons e m ih =>
    by_cases h : e.1 = k
    · simp [aggFind, h]
    · simp [aggFind, h, ih]

/-- Updating a present key makes it the looked-up value. -/
theorem aggFind_update_self (m : List ((Int × JNum) × SlotEntry))
    (k : Int × JNum) (v : SlotEntry) (h : (aggFind m k).isSome) :
    aggFind (aggUpdate m k v) k = some v := by
  induction m with
  | nil => simp [aggFind] at h
  | cons e m ih =>
    by_cases he : e.1 = k
    · simp [aggUpdate, aggFind, he]
    · simp only [aggFind, if_neg he] at h
      simp only [aggUpdate, if_neg he, aggFind]
      exact ih h

/-- Updating one key leaves other lookups unchanged. -/
theorem aggFind_update_ne (m : List ((Int × JNum) × SlotEntry))
    (k k' : Int × JNum) (v : SlotEntry) (h : k' ≠ k) :
    aggFind (aggUpdate m k v) k' = aggFind m k' := by
  induction m with
  | nil => rfl
  | cons e m ih =>
    by_cases he : e.1 = k
    · simp only [aggUpdate, if_pos he, aggFind]
      rw [if_neg (fun hk : k = k' => h hk.symm),
        if_neg (fun hk : e.1 = k' => h (he.symm.trans hk).symm)]
    · simp only [aggUpdate, if_neg he, aggFind, ih]

/-- Skipped records leave the map untouched. -/
theorem aggStep_of_skip (dp : String → Option Int) (allowed : List Int)
    (m : List ((Int × JNum) × SlotEntry)) (b : RangeBooking)
    (h : skipB allowed b = true) : aggStep dp allowed m b = m := by
  simp [aggStep, h]

/-- A kept record updates or creates its key's entry. -/
theorem aggStep_of_keep (dp : String → Option Int) (allowed : List Int)
    (m : List ((Int × JNum) × SlotEntry)) (b : RangeBooking)
    (h : skipB allowed b = false) :
    aggStep dp allowed m b =
      match aggFind m (rangeKey dp b) with
      | some e => aggUpdate m (rangeKey dp b)
          (updEntry e (parseRangeMs dp b.endv) (parseCounts b.person_counts))
      | none => m ++ [(rangeKey dp b, newEntry b.product_id
          (parseRangeMs dp b.start) (parseRangeMs dp b.endv)
          (parseCounts b.person_counts))] := by
  simp [aggStep, h, rangeKey]

/-- Unfolding `foldGroup` over a fresh group head. -/
theorem foldGroup_cons_none (dp : String → Option Int) (b : RangeBooking)
    (bs : List RangeBooking) :
    foldGroup dp none (b :: bs) =
      foldGroup dp (some (newEntry b.product_id (parseRangeMs dp b.start)
        (parseRangeMs dp b.endv) (parseCounts b.person_counts))) bs := rfl

/-- Unfolding `foldGroup` over a subsequent group member. -/
theorem foldGroup_cons_some (dp : String → Option Int) (e : SlotEntry)
    (b : RangeBooking) (bs : List RangeBooking) :
    foldGroup dp (some e) (b :: bs) =
      foldGroup dp (some (updEntry e (parseRangeMs dp b.endv)
        (parseCounts b.person_counts))) bs := rfl

/-- Lookup after the aggregation loop: the entry of key `k` is the
group fold of the records whose key is `k` and that pass the product
filter. -/
theorem aggFind_foldl (dp : String → Option Int) (allowed : List Int)
    (l : List RangeBooking) (m : List ((Int × JNum) × SlotEntry))
    (k : Int × JNum) :
    aggFind (l.foldl (aggStep dp allowed) m) k =
      foldGroup dp (aggFind m k) (l.filter (groupPred dp allowed k)) := by
  induction l generalizing m with
  | nil => rfl
  | cons b l ih =>
    rw [List.foldl_cons, ih]
    cases hskip : skipB allowed b with
    | true =>
      have hp : groupPred dp allowed k b = false := by
        simp [groupPred, hskip]
      rw [List.filter_cons, hp, aggStep_of_skip dp allowed m b hskip]
      simp
    | false =>
      by_cases hkey : rangeKey dp b = k
      · have hp : groupPred dp allowed k b = true := by
          simp [groupPred, hskip, hkey]
        rw [List.filter_cons, hp, if_pos rfl]
        cases hf : aggFind m k with
        | none =>
          rw [foldGroup_cons_none]
          have hstep : aggFind (aggStep dp allowed m b) k =
              some (newEntry b.product_id (parseRangeMs dp b.start)
                (parseRangeMs dp b.endv) (parseCounts b.person_counts)) := by
            rw [aggStep_of_keep dp allowed m b hskip, hkey, hf,
              aggFind_append, hf]
            simp [aggFind]
          rw [hstep]
        | some e =>
          rw [foldGroup_cons_some]
          have hstep : aggFind (aggStep dp allowed m b) k =
              some (updEntry e (parseRangeMs dp b.endv)
                (parseCounts b.person_counts)) := by
            rw [aggStep_of_keep dp allowed m b hskip, hkey, hf]
            exact aggFind_update_self m k _ (by rw [hf]; rfl)
          rw [hstep]
      · have hp : groupPred dp allowed k b = false := by
          simp [groupPred, hskip, hkey]
        rw [List.filter_cons, hp]
        have hstep : aggFind (aggStep dp allowed m b) k = aggFind m k := by
          rw [aggStep_of_keep dp allowed m b hskip]
          cases hf : aggFind m (rangeKey dp b) with
          | none =>
            rw [aggFind_append]
            cases hm : aggFind m k with
            | none => simp [aggFind, hkey]
            | some e => rfl
          | some e =>
            exact aggFind_update_ne m (rangeKey dp b) k _
              (fun hk => hkey hk.symm)
        rw [hstep]
        simp

/-- Lookup in the aggregated map is the group fold over the key's
records. -/
theorem aggFind_aggregateRange (dp : String → Option Int)
    (allowed : List Int) (l : List RangeBooking) (k : Int × JNum) :
    aggFind (aggregateRange dp allowed l) k =
      foldGroup dp none (l.filter (groupPred dp allowed k)) :=
  aggFind_foldl dp allowed l [] k

/-- `usedSum` over a cons. -/
theorem usedSum_cons (b : RangeBooking) (bs : List RangeBooking) :
    usedSum (b :: bs) = parseCounts b.person_counts + usedSum bs := by
  simp [usedSum]

/-- The `used` accumulated from a group tail is the sum of its counts. -/
theorem foldGroup_used_some (dp : String → Option Int)
    (bs : List RangeBooking) : ∀ e : SlotEntry,
    (foldGroup dp (some e) bs).map (·.used) = some (e.used + usedSum bs) := by
  induction bs with
  | nil => intro e; simp [foldGroup, usedSum]
  | cons b bs ih =>
    intro e
    rw [foldGroup_cons_some, ih, usedSum_cons]
    simp [updEntry, add_assoc]

/-- The `used` of a whole group is the sum of its counts. -/
theorem foldGroup_used (dp : String → Option Int)
    (bs : List RangeBooking) :
    (foldGroup dp none bs).map (·.used) =
      if bs.isEmpty then none else some (usedSum bs) := by
  cases bs with
  | nil => rfl
  | cons b bs =>
    rw [foldGroup_cons_none, foldGroup_used_some, usedSum_cons]
    simp [newEntry]

/-- `maxFold` from a `some` accumulator is a plain `max` fold. -/
theorem maxFold_go (l : List Int) : ∀ a : Int,
    l.foldl maxStep (some a) = some (l.foldl max a) := by
  induction l with
  | nil => intro a; rfl
  | cons v l ih =>
    intro a
    rw [List.foldl_cons, List.foldl_cons]
    exact ih (max a v)

/-- `maxFold` over a cons. -/
theorem maxFold_cons (v : Int) (l : List Int) :
    maxFold (v :: l) = some (l.foldl max v) := by
  unfold maxFold
  rw [List.foldl_cons]
  exact maxFold_go l v

/-- `maxFold` is invariant under permutation. -/
theorem maxFold_perm {l1 l2 : List Int} (h : l1.Perm l2) :
    maxFold l1 = maxFold l2 := by
  unfold maxFold
  refine h.foldl_eq' (fun x _ y _ z => ?_) none
  cases z with
  | none =>
    simp only [maxStep]
    rw [max_comm]
  | some a =>
    simp only [maxStep]
    rw [sup_right_comm]

/-- A truthy number is a nonzero `some`. -/
theorem jsTruthy_iff (x : JNum) :
    jsTruthy x = true ↔ ∃ w, x = some w ∧ w ≠ 0 := by
  cases x <;> simp [jsTruthy]

/-- `endVals` over a cons whose end parses truthy. -/
theorem endVals_cons_of_some (dp : String → Option Int) (b : RangeBooking)
    (bs : List RangeBooking) (w : Int)
    (hw : parseRangeMs dp b.endv = some w) :
    endVals dp (b :: bs) = w :: endVals dp bs := by
  simp [endVals, List.filterMap_cons, hw]

/-- Permutations preserve `usedSum`. -/
theorem usedSum_perm {bs1 bs2 : List RangeBooking} (h : bs1.Perm bs2) :
    usedSum bs1 = usedSum bs2 :=
  (h.map _).sum_eq

/-- Permutations of records permute the parsed end values. -/
theorem endVals_perm (dp : String → Option Int)
    {bs1 bs2 : List RangeBooking} (h : bs1.Perm bs2) :
    (endVals dp bs1).Perm (endVals dp bs2) :=
  List.Perm.filterMap _ h

/-- Permutations preserve `isEmpty`. -/
theorem perm_isEmpty {α : Type} {l1 l2 : List α} (h : l1.Perm l2) :
    l1.isEmpty = l2.isEmpty := by
  cases l1 <;> cases l2 <;> simp_all [List.nil_perm, List.perm_nil]

/-- Full characterization of a group fold from an accumulator with a
`some` end, when every member's end parses truthy: the `end` is the
running maximum and the `used` the running sum. -/
theorem foldGroup_full_some (dp : String → Option Int)
    (bs : List RangeBooking) : ∀ (e : SlotEntry) (v : Int),
    e.endv = some v →
    (∀ b ∈ bs, jsTruthy (parseRangeMs dp b.endv) = true) →
    foldGroup dp (some e) bs =
      some ⟨e.product_id, e.start, some ((endVals dp bs).foldl max v),
        e.used + usedSum bs⟩ := by
  induction bs with
  | nil =>
    intro e v hv _
    cases e
    simp_all [foldGroup, endVals, usedSum]
  | cons b bs ih =>
    intro e v hv hall
    obtain ⟨w, hw, hw0⟩ :=
      (jsTruthy_iff _).mp (hall b (List.mem_cons_self b bs))
    obtain ⟨pid, st, ev, us⟩ := e
    simp only at hv
    subst hv
    rw [foldGroup_cons_some]
    have hupd : updEntry ⟨pid, st, some v, us⟩ (parseRangeMs dp b.endv)
        (parseCounts b.person_counts) =
        ⟨pid, st, some (max v w), us + parseCounts b.person_counts⟩ := by
      simp [updEntry, hw, jsOr, jsTruthy, hw0, jsMax]
    rw [hupd, ih _ (max v w) rfl
      (fun b' hb' => hall b' (List.mem_cons_of_mem b hb')),
      endVals_cons_of_some dp b bs w hw, usedSum_cons]
    simp [List.foldl_cons, add_assoc]

/-- Full characterization of a group all of whose members share key `k`
and have truthy ends. -/
theorem foldGroup_full_keyed (dp : String → Option Int) (k : Int × JNum)
    (bs : List RangeBooking)
    (hkey : ∀ b ∈ bs, rangeKey dp b = k)
    (hall : ∀ b ∈ bs, jsTruthy (parseRangeMs dp b.endv) = true) :
    foldGroup dp none bs =
      if bs.isEmpty then none
      else some ⟨k.1, k.2, maxFold (endVals dp bs), usedSum bs⟩ := by
  cases bs with
  | nil => rfl
  | cons b bs =>
    obtain ⟨w, hw, hw0⟩ :=
      (jsTruthy_iff _).mp (hall b (List.mem_cons_self b bs))
    rw [foldGroup_cons_none]
    have hnew : newEntry b.product_id (parseRangeMs dp b.start)
        (parseRangeMs dp b.endv) (parseCounts b.person_counts) =
        ⟨b.product_id, parseRangeMs dp b.start, some w,
          parseCounts b.person_counts⟩ := by
      simp [newEntry, hw, jsOr, jsTruthy, hw0]
    rw [hnew, foldGroup_full_some dp bs _ w rfl
      (fun b' hb' => hall b' (List.mem_cons_of_mem b hb')),
      endVals_cons_of_some dp b bs w hw, maxFold_cons, usedSum_cons]
    have hk := hkey b (List.mem_cons_self b bs)
    rw [← hk]
    simp [rangeKey]

/-! ## C4 — permutation behaviour of the availability aggregation -/

/-- C4 counterexample: `handleAvailabilityRange` never sorts its output
— the `out` array follows the `Map`'s insertion order, so permuting two
bookings of different products permutes the output slot list. The claim
of a deterministic (start, product name)-ascending output order
independent of input order is false for this aggregation. -/
theorem aggregation_order_counterexample :
    List.Perm [exBookingA, exBookingB] [exBookingB, exBookingA] ∧
    rangeValues (aggregateRange (fun _ => none) [] [exBookingA, exBookingB])
      ≠
    rangeValues (aggregateRange (fun _ => none) [] [exBookingB, exBookingA])
    := by
  constructor
  · exact List.Perm.swap exBookingB exBookingA []
  · decide

/-- C4 (amended): the per-(product, start)-group aggregates are
permutation-invariant — `used` (the sum of participant counts)
unconditionally, and the whole entry including `end` (the maximum end)
whenever every record's `end` parses to a truthy value — but the output
slot list itself follows group insertion order, which depends on the
input order (only the client-side per-date lists of part_005 are
sorted by (start, product name)). -/
theorem aggregation_perm_invariant (dp : String → Option Int)
    (allowed : List Int) (l1 l2 : List RangeBooking) (hperm : l1.Perm l2) :
    (∀ k, (aggFind (aggregateRange dp allowed l1) k).map (·.used) =
        (aggFind (aggregateRange dp allowed l2) k).map (·.used)) ∧
    ((∀ b ∈ l1, jsTruthy (parseRangeMs dp b.endv) = true) →
      ∀ k, aggFind (aggregateRange dp allowed l1) k =
        aggFind (aggregateRange dp allowed l2) k) := by
  have hf : ∀ k, (l1.filter (groupPred dp allowed k)).Perm
      (l2.filter (groupPred dp allowed k)) :=
    fun k => List.Perm.filter _ hperm
  constructor
  · intro k
    rw [aggFind_aggregateRange, aggFind_aggregateRange, foldGroup_used,
      foldGroup_used, perm_isEmpty (hf k), usedSum_perm (hf k)]
  · intro hall k
    have hkey1 : ∀ b ∈ l1.filter (groupPred dp allowed k),
        rangeKey dp b = k := by
      intro b hb
      have h2 := (List.mem_filter.mp hb).2
      simp only [groupPred, Bool.and_eq_true, decide_eq_true_eq] at h2
      exact h2.2
    have hkey2 : ∀ b ∈ l2.filter (groupPred dp allowed k),
        rangeKey dp b = k := by
      intro b hb
      have h2 := (List.mem_filter.mp hb).2
      simp only [groupPred, Bool.and_eq_true, decide_eq_true_eq] at h2
      exact h2.2
    have hend1 : ∀ b ∈ l1.filter (groupPred dp allowed k),
        jsTruthy (parseRangeMs dp b.endv) = true :=
      fun b hb => hall b (List.mem_filter.mp hb).1
    have hend2 : ∀ b ∈ l2.filter (groupPred dp allowed k),
        jsTruthy (parseRangeMs dp b.endv) = true :=
      fun b hb => hall b (hperm.mem_iff.mpr (List.mem_filter.mp hb).1)
    rw [aggFind_aggregateRange, aggFind_aggregateRange,
      foldGroup_full_keyed dp k _ hkey1 hend1,
      foldGroup_full_keyed dp k _ hkey2 hend2,
      perm_isEmpty (hf k), usedSum_perm (hf k),
      maxFold_perm (endVals_perm dp (hf k))]

/-- Witness for `aggregation_perm_invariant`: the two-record swap,
looked up at product 1's slot key. -/
theorem aggregation_perm_invariant_witness :
    (aggFind (aggregateRange (fun _ => none) [] [exBookingA, exBookingB])
      (1, some 2000000000000)).map (·.used) =
    (aggFind (aggregateRange (fun _ => none) [] [exBookingB, exBookingA])
      (1, some 2000000000000)).map (·.used) ∧
    aggFind (aggregateRange (fun _ => none) [] [exBookingA, exBookingB])
      (1, some 2000000000000) =
    aggFind (aggregateRange (fun _ => none) [] [exBookingB, exBookingA])
      (1, some 2000000000000) := by
  have h := aggregation_perm_invariant (fun _ => none) []
    [exBookingA, exBookingB] [exBookingB, exBookingA]
    (List.Perm.swap exBookingB exBookingA [])
  exact ⟨h.1 (1, some 2000000000000),
    h.2 (by decide) (1, some 2000000000000)⟩

/-! ## C5 — unparseable starts in the aggregation -/

/-- C5 (code bug, evaluated at the failing input): a booking whose
`start` fails `Date.parse` is not excluded from the aggregation of
`handleAvailabilityRange` — it is grouped under the per-product `NaN`
sentinel key (`"1|NaN"`), and `parseBookingDateToMs` (the parser used
by `getBookings`' range filter) silently substitutes `Date.now()` for
an unparseable timestamp, both contrary to the claim. -/
theorem unparseable_start_sentinel :
    aggregateRange (fun _ => none) [] [badRangeBooking] =
      [((1, none), ⟨1, none, none, 2⟩)] ∧
    aggFind (aggregateRange (fun _ => none) [] [badRangeBooking])
      (1, none) = some ⟨1, none, none, 2⟩ ∧
    parseBookingDateToMs (fun _ => none) 1730000000000 (.str "garbage") =
      1730000000000 := by
  refine ⟨by decide, by decide, by decide⟩

/-! ## C6 — assignment-filter tier precedence -/

/-- C6 counterexample: the `refresh` filter (BookingCalendar.tsx lines
532–567) has no exact-identifier tier. An event and an assigned booking
that share booking identifier 42 but have no product linkage and far
apart start times are matched (and kept) by the `loadMonth` filter's
exact tier, yet the `refresh` filter drops the event — so it is not the
case that every booking given to the assignment filter with an exact
identifier match is resolved by the exact-identifier tier. -/
theorem refresh_filter_drops_exact_match :
    cexEvent.bookingId = cexAssigned.bookingId ∧
    cexEvent.bookingId ≠ 0 ∧
    tierExact [cexAssigned] cexEvent = true ∧
    loadMonthPred (fun t => t / 86400000) [cexAssigned] cexEvent = true ∧
    refreshPred (fun t => t / 86400000) [cexAssigned] cexEvent = false ∧
    refreshFilter (fun t => t / 86400000) [cexAssigned] [cexEvent] = [] := by
  refine ⟨by decide, by decide, by decide, by decide, by decide, by decide⟩

/-- C6 (amended): in the `loadMonth` filter (lines 239–288) the
exact-identifier tier is attempted first and suffices: any event whose
(truthy) booking identifier equals a (truthy) assigned identifier is
matched by the exact tier and kept, regardless of what the fallback
tiers would say; the `refresh` filter, by contrast, omits the exact
tier and applies only the three fallback tiers. -/
theorem loadMonth_exact_match_included (dayOf : Int → Int)
    (assigned events : List CalEvent) (e a : CalEvent)
    (ha : a ∈ assigned) (hbe : e.bookingId ≠ 0) (hba : a.bookingId ≠ 0)
    (heq : e.bookingId = a.bookingId) :
    tierExact assigned e = true ∧
    loadMonthPred dayOf assigned e = true ∧
    (e ∈ events → e ∈ loadMonthFilter dayOf assigned events) := by
  have ht : tierExact assigned e = true := by
    simp only [tierExact, List.any_eq_true]
    refine ⟨a, ha, ?_⟩
    simp only [Bool.and_eq_true, decide_eq_true_eq]
    exact ⟨⟨hbe, hba⟩, heq⟩
  refine ⟨ht, by simp [loadMonthPred, ht], fun he =>
    List.mem_filter.mpr ⟨he, by simp [loadMonthPred, ht]⟩⟩

/-- Witness for `loadMonth_exact_match_included` at the concrete
fixture: identifier 42 matches exactly and the event is kept. -/
theorem loadMonth_exact_match_included_witness :
    tierExact [cexAssigned] cexEvent = true ∧
    cexEvent ∈ loadMonthFilter (fun t => t / 86400000) [cexAssigned]
      [cexEvent] := by
  have h := loadMonth_exact_match_included (fun t => t / 86400000)
    [cexAssigned] [cexEvent] cexEvent cexAssigned
    (List.mem_cons_self _ _) (by decide) (by decide) (by decide)
  exact ⟨h.1, h.2.2 (List.mem_cons_self _ _)⟩

/-! ## C7 — partial-failure pagination -/

/-- One unrolling of the pagination loop. -/
theorem fetchGo_succ {α : Type} (fp : Nat → PageResult α) (page : Nat)
    (acc : List α) (fuel : Nat) :
    fetchGo fp page acc (fuel + 1) =
      match fp page with
      | .fail => acc
      | .ok batch =>
        if batch.length < perPage then acc ++ batch
        else fetchGo fp (page + 1) (acc ++ batch) fuel := rfl

/-- A successful page accumulates its batch. -/
theorem fetchGo_step_ok {α : Type} (fp : Nat → PageResult α) (page : Nat)
    (acc : List α) (fuel : Nat) (batch : List α)
    (h : fp page = .ok batch) :
    fetchGo fp page acc (fuel + 1) =
      if batch.length < perPage then acc ++ batch
      else fetchGo fp (page + 1) (acc ++ batch) fuel := by
  rw [fetchGo_succ, h]

/-- A failed page stops the loop with the accumulated records. -/
theorem fetchGo_step_fail {α : Type} (fp : Nat → PageResult α)
    (page : Nat) (acc : List α) (fuel : Nat) (h : fp page = .fail) :
    fetchGo fp page acc (fuel + 1) = acc := by
  rw [fetchGo_succ, h]

/-- C7: a page failure stops pagination and the call returns exactly
the records accumulated from the pages that succeeded before it — in
particular, success on page 1 followed by a failure on page 2 yields
exactly the page-1 records (never an error and never an empty list when
page 1 had records); and when every page is full (`per_page = 100`
records each) the loop stops at the hard ceiling of 5 pages, returning
their concatenation. -/
theorem fetchAll_partial_results {α : Type} :
    (∀ (fp : Nat → PageResult α) (b1 : List α),
      fp 1 = .ok b1 → fp 2 = .fail → fetchAll fp = b1) ∧
    (∀ (fp : Nat → PageResult α) (bs : Nat → List α),
      (∀ p, 1 ≤ p → p ≤ 5 → fp p = .ok (bs p) ∧ (bs p).length = perPage) →
      fetchAll fp = bs 1 ++ bs 2 ++ bs 3 ++ bs 4 ++ bs 5) := by
  constructor
  · intro fp b1 h1 h2
    show fetchGo fp 1 [] (4 + 1) = b1
    rw [fetchGo_step_ok fp 1 [] 4 b1 h1]
    by_cases hlen : b1.length < perPage
    · rw [if_pos hlen]
      simp
    · rw [if_neg hlen]
      rw [fetchGo_step_fail fp (1 + 1) ([] ++ b1) 3 h2]
      simp
  · intro fp bs hfull
    have h1 := hfull 1 (by norm_num) (by norm_num)
    have h2 := hfull 2 (by norm_num) (by norm_num)
    have h3 := hfull 3 (by norm_num) (by norm_num)
    have h4 := hfull 4 (by norm_num) (by norm_num)
    have h5 := hfull 5 (by norm_num) (by norm_num)
    show fetchGo fp 1 [] (4 + 1) = _
    rw [fetchGo_step_ok fp 1 [] 4 (bs 1) h1.1,
      if_neg (by rw [h1.2]; exact lt_irrefl _)]
    show fetchGo fp 2 ([] ++ bs 1) (3 + 1) = _
    rw [fetchGo_step_ok fp 2 ([] ++ bs 1) 3 (bs 2) h2.1,
      if_neg (by rw [h2.2]; exact lt_irrefl _)]
    show fetchGo fp 3 ([] ++ bs 1 ++ bs 2) (2 + 1) = _
    rw [fetchGo_step_ok fp 3 ([] ++ bs 1 ++ bs 2) 2 (bs 3) h3.1,
      if_neg (by rw [h3.2]; exact lt_irrefl _)]
    show fetchGo fp 4 ([] ++ bs 1 ++ bs 2 ++ bs 3) (1 + 1) = _
    rw [fetchGo_step_ok fp 4 ([] ++ bs 1 ++ bs 2 ++ bs 3) 1 (bs 4) h4.1,
      if_neg (by rw [h4.2]; exact lt_irrefl _)]
    show fetchGo fp 5 ([] ++ bs 1 ++ bs 2 ++ bs 3 ++ bs 4) (0 + 1) = _
    rw [fetchGo_step_ok fp 5 ([] ++ bs 1 ++ bs 2 ++ bs 3 ++ bs 4) 0
        (bs 5) h5.1,
      if_neg (by rw [h5.2]; exact lt_irrefl _)]
    simp
    rfl

/-- Witness for `fetchAll_partial_results`: an oracle succeeding on
page 1 with one record and failing afterwards returns exactly that
record. -/
theorem fetchAll_partial_results_witness :
    fetchAll (fun p => if p = 1 then PageResult.ok [7] else .fail) =
      ([7] : List Nat) :=
  fetchAll_partial_results.1 (fun p => if p = 1 then .ok [7] else .fail)
    [7] rfl rfl

/-! ## C8 — cache in-flight de-duplication -/

/-- `Map.set` then `Map.get` of the same key. -/
theorem alFind_alInsert_self {κ β : Type} [DecidableEq κ]
    (m : List (κ × β)) (k : κ) (v : β) :
    alFind (alInsert m k v) k = some v := by
  induction m with
  | nil => simp [alInsert, alFind]
  | cons e m ih =>
    by_cases h : e.1 = k
    · simp [alInsert, alFind, h]
    · simp [alInsert, alFind, h, ih]

/-- Deleting a freshly inserted key restores a map that did not contain
it. -/
theorem alErase_alInsert_of_absent {κ β : Type} [DecidableEq κ]
    (m : List (κ × β)) (k : κ) (v : β) (h : alFind m k = none) :
    alErase (alInsert m k v) k = m := by
  induction m with
  | nil => simp [alInsert, alErase]
  | cons e m ih =>
    by_cases he : e.1 = k
    · rw [alFind, if_pos he] at h
      exact absurd h (by simp)
    · rw [alFind, if_neg he] at h
      simp [alInsert, alErase, he, ih h]

/-- C8: with no cached value and nothing in flight for a key, the first
`getAvailabilityBlocks` call starts exactly one loader invocation and
registers its promise in the in-flight map; a second call issued before
the first settles performs no further fetch (the state is unchanged)
and receives the very same promise; and settling removes the in-flight
entry. -/
theorem cache_inflight_dedup {V : Type} (s : CacheState V) (key : String)
    (hc : alFind s.cache key = none) (hi : alFind s.inflight key = none) :
    (availCall s key).2 = .started s.nextP ∧
    (availCall (availCall s key).1 key).2 = .joined s.nextP ∧
    (availCall (availCall s key).1 key).1 = (availCall s key).1 ∧
    (availCall s key).1.fetchCount = s.fetchCount + 1 ∧
    alFind (availCall s key).1.inflight key = some s.nextP ∧
    ∀ res, alFind (availSettle (availCall (availCall s key).1 key).1 key
      res).inflight key = none := by
  have h1 : availCall s key =
      (⟨s.cache, alInsert s.inflight key s.nextP, s.fetchCount + 1,
        s.nextP + 1⟩, .started s.nextP) := by
    unfold availCall
    rw [hc, hi]
  have h2 : availCall (⟨s.cache, alInsert s.inflight key s.nextP,
      s.fetchCount + 1, s.nextP + 1⟩ : CacheState V) key =
      (⟨s.cache, alInsert s.inflight key s.nextP, s.fetchCount + 1,
        s.nextP + 1⟩, .joined s.nextP) := by
    unfold availCall
    rw [hc, alFind_alInsert_self]
  rw [h1]
  dsimp only
  rw [h2]
  refine ⟨rfl, rfl, rfl, rfl, alFind_alInsert_self _ _ _, fun res => ?_⟩
  show alFind (alErase (alInsert s.inflight key s.nextP) key) key = none
  rw [alErase_alInsert_of_absent _ _ _ hi]
  exact hi

/-- Witness for `cache_inflight_dedup`: from the empty service state,
two concurrent identical queries share promise 0 and one fetch; the
settled state has no in-flight entry. -/
theorem cache_inflight_dedup_witness :
    (availCall (⟨[], [], 0, 0⟩ : CacheState Nat) "k").2 = .started 0 ∧
    (availCall (availCall (⟨[], [], 0, 0⟩ : CacheState Nat) "k").1
      "k").2 = .joined 0 ∧
    (availCall (⟨[], [], 0, 0⟩ : CacheState Nat) "k").1.fetchCount = 1 ∧
    alFind (availSettle (availCall (availCall
      (⟨[], [], 0, 0⟩ : CacheState Nat) "k").1 "k").1 "k"
      (some 5)).inflight "k" = none := by
  have h := cache_inflight_dedup (⟨[], [], 0, 0⟩ : CacheState Nat) "k"
    rfl rfl
  exact ⟨h.1, h.2.1, h.2.2.2.1, h.2.2.2.2.2 (some 5)⟩

/-! ## C9 — missing-configuration responses -/

/-- C9 counterexample: with no credentials configured,
`handleAvailabilityRange` responds `400` with `success: false` and an
error message — an error response, not a success envelope with an
"unavailable" flag. -/
theorem availability_no_config_error_response :
    (availabilityRangeRoute (fun _ => none) trivialRest).status = 400 ∧
    (availabilityRangeRoute (fun _ => none) trivialRest).success = false ∧
    (availabilityRangeRoute (fun _ => none) trivialRest).error =
      some "WooCommerce credentials not configured" :=
  ⟨rfl, rfl, rfl⟩

/-- C9 (amended): when the WooCommerce configuration is absent, the
bookings listing (`getBookings`) returns a 200 success envelope with an
empty result set, `bookings_available: false` and
`credentials_missing: true`; the availability-range aggregation
(`handleAvailabilityRange`), however, returns a 400 response with
`success: false` — the success-envelope behaviour holds only for the
bookings listing. -/
theorem no_config_envelopes (env : String → Option String)
    (rest rest' : WooConfig → Envelope) (h : getWooConfig env = none) :
    getBookingsRoute env rest =
      ⟨200, true, 0, some false, some true, none⟩ ∧
    availabilityRangeRoute env rest' =
      ⟨400, false, 0, none, none,
        some "WooCommerce credentials not configured"⟩ := by
  unfold getBookingsRoute availabilityRangeRoute
  rw [h]
  exact ⟨rfl, rfl⟩

/-- Witness for `no_config_envelopes` at the empty environment. -/
theorem no_config_envelopes_witness :
    getBookingsRoute (fun _ => none) trivialRest =
      ⟨200, true, 0, some false, some true, none⟩ ∧
    availabilityRangeRoute (fun _ => none) trivialRest =
      ⟨400, false, 0, none, none,
        some "WooCommerce credentials not configured"⟩ :=
  no_config_envelopes (fun _ => none) trivialRest trivialRest rfl

/-! ## C10 — defensive date-range postcondition -/

/-- C10: every booking surviving the defensive server-side filter of
`getBookings` has its parsed start instant within the requested bounds:
at or after `start_date` 00:00:00 UTC when a `start_date` was given
(and parseable), and at or before `end_date` 23:59:59 UTC when an
`end_date` was given — the filter runs before conversion and caching,
so every record in the returned data satisfies the range
postcondition. -/
theorem rangeFilter_postcondition (dateParse : String → Option Int)
    (now : Int) (sd ed : Option String) (bs : List WcBooking)
    (b : WcBooking) (hb : b ∈ rangeFilter dateParse now sd ed bs) :
    (∀ d m, sd = some d → dateParse (d ++ "T00:00:00Z") = some m →
      m ≤ parseBookingDateToMs dateParse now b.start) ∧
    (∀ d m, ed = some d → dateParse (d ++ "T23:59:59Z") = some m →
      parseBookingDateToMs dateParse now b.start ≤ m) := by
  unfold rangeFilter at hb
  by_cases h0 : sd.isNone && ed.isNone
  · have hsd : sd = none := by
      cases sd
      · rfl
      · simp at h0
    have hed : ed = none := by
      cases ed
      · rfl
      · simp at h0
    subst hsd
    subst hed
    exact ⟨fun d m hd _ => Option.noConfusion hd,
      fun d m hd _ => Option.noConfusion hd⟩
  · rw [if_neg h0] at hb
    have hp := (List.mem_filter.mp hb).2
    rw [Bool.and_eq_true] at hp
    constructor
    · intro d m hd hm
      have h1 := hp.1
      rw [hd] at h1
      simp only [passMin, hm, decide_eq_true_eq] at h1
      exact h1
    · intro d m hd hm
      have h1 := hp.2
      rw [hd] at h1
      simp only [passMax, hm, decide_eq_true_eq] at h1
      exact h1

/-- Witness for `rangeFilter_postcondition`: a booking on Jan 1 2024
passes the Jan 1 – Jan 2 filter and its parsed start lies within the
bounds. -/
theorem rangeFilter_postcondition_witness :
    1704067200000 ≤ parseBookingDateToMs wDp 0 (.num 1704100000) ∧
    parseBookingDateToMs wDp 0 (.num 1704100000) ≤ 1704239999000 := by
  have h := rangeFilter_postcondition wDp 0 (some "2024-01-01")
    (some "2024-01-02") [⟨7, .num 1704100000⟩] ⟨7, .num 1704100000⟩
    (by decide)
  exact ⟨h.1 "2024-01-01" 1704067200000 rfl (by decide),
    h.2 "2024-01-02" 1704239999000 rfl (by decide)⟩

end FlareZone
